import Mathlib

/-!
Verification of the core note-processing pipeline of a vocal-to-MIDI backend.

The definitions below are shallow embeddings of the Python sources:
  backend/services/transcription.py  (post-processing inside vocal_to_midi,
                                      _build_scale_set, _snap_to_scale, _quantize_time)
  backend/services/chords.py         (parse_chord and the note-generation loop of
                                      generate_chord_progression)
  backend/services/sampler.py        (render_with_sample)

Python floats are modelled as rationals, Python ints as integers.  Python `%` on
integers agrees with Int.emod (both are nonnegative for a positive modulus).
`int(x)` (truncation toward zero) is pyInt, and the built-in `round` (banker
rounding, ties to even) is pyRound.
-/

/-- A MIDI note event: `{pitch, start, end, velocity}`.  The `end` field of the
source is called `stop` here because `end` is reserved. -/
structure Note where
  pitch : ℤ
  start : ℚ
  stop : ℚ
  velocity : ℤ
deriving DecidableEq, Repr

instance : Inhabited Note := ⟨⟨0, 0, 0, 0⟩⟩

/-- Python `int(q)`: truncation toward zero. -/
def pyInt (q : ℚ) : ℤ := if 0 ≤ q then ⌊q⌋ else -⌊-q⌋

/-- Python `round(q)`: round to the nearest integer, ties to the even integer. -/
def pyRound (q : ℚ) : ℤ :=
  let n := ⌊q⌋
  let frac := q - n
  if frac < 1/2 then n
  else if 1/2 < frac then n + 1
  else if n % 2 = 0 then n else n + 1

/-! ## transcription.py: tables and tuning constants -/

/-- SCALE_INTERVALS table of transcription.py (pitch classes 0-11). -/
def SCALE_INTERVALS : List (String × List ℤ) :=
  [("major", [0, 2, 4, 5, 7, 9, 11]),
   ("minor", [0, 2, 3, 5, 7, 8, 10]),
   ("chromatic", [0, 1, 2, 3, 4, 5, 6, 7, 8, 9, 10, 11])]

/-- KEY_OFFSETS table of transcription.py (note name to pitch-class offset). -/
def KEY_OFFSETS : List (String × ℤ) :=
  [("C", 0), ("C#", 1), ("Db", 1),
   ("D", 2), ("D#", 3), ("Eb", 3),
   ("E", 4),
   ("F", 5), ("F#", 6), ("Gb", 6),
   ("G", 7), ("G#", 8), ("Ab", 8),
   ("A", 9), ("A#", 10), ("Bb", 10),
   ("B", 11)]

def MIN_NOTE_DURATION_SEC : ℚ := 1/10
def MIN_VELOCITY : ℤ := 40
def MERGE_GAP_SEC : ℚ := 6/100
def MAX_NOTES_PER_SECOND : ℚ := 8

/-- `KEY_OFFSETS.get(key, 0)` of _build_scale_set. -/
def keyOffset (key : String) : ℤ :=
  ((KEY_OFFSETS.find? (fun p => p.1 == key)).map (fun p => p.2)).getD 0

/-- `SCALE_INTERVALS.get(scale, SCALE_INTERVALS["chromatic"])` of _build_scale_set. -/
def scaleIntervalsFor (scale : String) : List ℤ :=
  ((SCALE_INTERVALS.find? (fun p => p.1 == scale)).map (fun p => p.2)).getD
    [0, 1, 2, 3, 4, 5, 6, 7, 8, 9, 10, 11]

/-- The pitch-class set `{(root + i) % 12 : i in intervals}` of _build_scale_set,
as a list (only membership is ever used, so the set is modelled by a list). -/
def pitchClassesFor (key scale : String) : List ℤ :=
  (scaleIntervalsFor scale).map (fun i => (keyOffset key + i) % 12)

/-- _build_scale_set: all MIDI notes 0-127 whose pitch class is in the scale. -/
def buildScaleSet (key scale : String) : List ℤ :=
  (List.map (fun m : ℕ => (m : ℤ)) (List.range 128)).filter
    (fun m => decide (m % 12 ∈ pitchClassesFor key scale))

/-! ## transcription.py: _snap_to_scale -/

/-- The loop `for offset in range(1, 7)` of _snap_to_scale: at each offset try
`pitch + offset`, then `pitch - offset`; fall through to `pitch` itself. -/
def snapLoop (pitch : ℤ) (validNotes : List ℤ) : List ℤ → ℤ
  | [] => pitch
  | off :: rest =>
    if pitch + off ∈ validNotes then pitch + off
    else if pitch - off ∈ validNotes then pitch - off
    else snapLoop pitch validNotes rest

/-- _snap_to_scale of transcription.py. -/
def snapToScale (pitch : ℤ) (validNotes : List ℤ) : ℤ :=
  if pitch ∈ validNotes then pitch
  else snapLoop pitch validNotes [1, 2, 3, 4, 5, 6]

/-- The candidates _snap_to_scale examines, in examination order: the pitch
itself, then `+1, -1, +2, -2, ..., +6, -6`.  This is the order claimed by the
specification; the snap theorems relate snapToScale to a first match over it. -/
def snapCandidates (pitch : ℤ) : List ℤ :=
  pitch :: ([1, 2, 3, 4, 5, 6] : List ℤ).flatMap (fun off => [pitch + off, pitch - off])

/-! ## transcription.py: _quantize_time -/

/-- The `divisions` dict of _quantize_time. -/
def divisionsTable : List (String × ℕ) :=
  [("1/4", 1), ("1/8", 2), ("1/16", 4), ("1/32", 8)]

/-- `divisions.get(quantize, 1)` of _quantize_time. -/
def subdivisionsFor (quantize : String) : ℕ :=
  ((divisionsTable.find? (fun p => p.1 == quantize)).map (fun p => p.2)).getD 1

/-- _quantize_time of transcription.py.  `60.0 / bpm` raises ZeroDivisionError
in Python exactly when `bpm = 0`; that failure is modelled as `none`. -/
def quantizeTime (t bpm : ℚ) (quantize : String) : Option ℚ :=
  if quantize = "off" then some t
  else
    let subdivisionsPerBeat := subdivisionsFor quantize
    if bpm = 0 then none
    else
      let beatDuration := 60 / bpm
      let gridSize := beatDuration / subdivisionsPerBeat
      some ((pyRound (t / gridSize) : ℚ) * gridSize)

/-! ## transcription.py: step 5 of vocal_to_midi (merge same-pitch notes) -/

/-- The merge loop of vocal_to_midi step 5, with `cur` playing the role of
`merged[-1]` (the last element already emitted, still open for extension). -/
def mergeLoop (cur : Note) : List Note → List Note
  | [] => [cur]
  | n :: rest =>
    if n.pitch = cur.pitch ∧ n.start - cur.stop < MERGE_GAP_SEC then
      mergeLoop { cur with stop := max cur.stop n.stop,
                           velocity := max cur.velocity n.velocity } rest
    else
      cur :: mergeLoop n rest

/-- Step 5 of vocal_to_midi: merge consecutive same-pitch notes with tiny gaps. -/
def mergeNotes : List Note → List Note
  | [] => []
  | n :: rest => mergeLoop n rest

/-! ## transcription.py: step 6 of vocal_to_midi (density cap) -/

/-- `max(2, int(MAX_NOTES_PER_SECOND * 0.25))` of vocal_to_midi step 6. -/
def maxPerWindow : ℕ := max 2 (pyInt (MAX_NOTES_PER_SECOND * (25/100))).toNat

/-- Stable insertion for the descending-velocity sort: an element inserted from
the left (earlier in the original list) passes over strictly louder notes only,
so equal velocities keep their original order, as Python list.sort does. -/
def insertVel (n : Note) : List Note → List Note
  | [] => [n]
  | m :: ms => if n.velocity < m.velocity then m :: insertVel n ms else n :: m :: ms

/-- `window_notes.sort(key=velocity, reverse=True)`: stable descending sort. -/
def sortByVelDesc (l : List Note) : List Note := l.foldr insertVel []

/-- Stable insertion for the ascending-start sort. -/
def insertStart (n : Note) : List Note → List Note
  | [] => [n]
  | m :: ms => if m.start < n.start then m :: insertStart n ms else n :: m :: ms

/-- `filtered.sort(key=start)`: stable ascending sort by start. -/
def sortByStart (l : List Note) : List Note := l.foldr insertStart []

/-- The windowing loop of vocal_to_midi step 6: `ws` is `window_start`, `cur`
is `window_notes`, `acc` is `filtered`.  A note at or past `ws + 0.25` flushes
the current window (keeping its loudest `maxPerWindow` notes) and re-anchors
the window at that note. -/
def capLoop (ws : ℚ) (cur acc : List Note) : List Note → List Note
  | [] => acc ++ (sortByVelDesc cur).take maxPerWindow
  | n :: rest =>
    if ws + 25/100 ≤ n.start then
      capLoop n.start [n] (acc ++ (sortByVelDesc cur).take maxPerWindow) rest
    else
      capLoop ws (cur ++ [n]) acc rest

/-- `inst.notes[-1].end - inst.notes[0].start`: the full span of the sequence. -/
def span : List Note → ℚ
  | [] => 0
  | first :: rest => ((first :: rest).getLast (List.cons_ne_nil first rest)).stop - first.start

/-- Step 6 of vocal_to_midi: if the note rate over the full span exceeds
MAX_NOTES_PER_SECOND, bucket into 0.25s windows, keep the loudest notes of
each window, and re-sort by start. -/
def densityCap (notes : List Note) : List Note :=
  match notes with
  | [] => []
  | first :: rest =>
    let duration := span (first :: rest)
    if 0 < duration then
      if MAX_NOTES_PER_SECOND < ((first :: rest).length : ℚ) / duration then
        sortByStart (capLoop first.start [] [] (first :: rest))
      else first :: rest
    else first :: rest

/-- The grouping performed by capLoop, kept abstract: the list of windows,
each window being the consecutive notes it gathers before a flush. -/
def groupLoop (ws : ℚ) (cur : List Note) : List Note → List (List Note)
  | [] => [cur]
  | n :: rest =>
    if ws + 25/100 ≤ n.start then cur :: groupLoop n.start [n] rest
    else groupLoop ws (cur ++ [n]) rest

/-- The greedy 0.25s windows of the density cap: the first window is anchored
at the first note, and each later window is anchored at the first note lying
at or past the previous anchor plus 0.25s. -/
def groupWindows : List Note → List (List Note)
  | [] => []
  | n :: rest => groupLoop n.start [n] rest

/-! ## chords.py: tables -/

/-- CHORD_INTERVALS table of chords.py (semitone intervals from the root). -/
def CHORD_INTERVALS : List (String × List ℤ) :=
  [("maj", [0, 4, 7]),
   ("", [0, 4, 7]),
   ("min", [0, 3, 7]),
   ("m", [0, 3, 7]),
   ("dim", [0, 3, 6]),
   ("aug", [0, 4, 8]),
   ("7", [0, 4, 7, 10]),
   ("maj7", [0, 4, 7, 11]),
   ("min7", [0, 3, 7, 10]),
   ("m7", [0, 3, 7, 10]),
   ("dim7", [0, 3, 6, 9]),
   ("sus2", [0, 2, 7]),
   ("sus4", [0, 5, 7]),
   ("add9", [0, 4, 7, 14]),
   ("6", [0, 4, 7, 9]),
   ("m6", [0, 3, 7, 9]),
   ("9", [0, 4, 7, 10, 14]),
   ("m9", [0, 3, 7, 10, 14]),
   ("11", [0, 4, 7, 10, 14, 17]),
   ("13", [0, 4, 7, 10, 14, 21]),
   ("5", [0, 7])]

/-- NOTE_MAP table of chords.py (note name to MIDI pitch around middle C). -/
def NOTE_MAP : List (String × ℤ) :=
  [("C", 60), ("C#", 61), ("Db", 61),
   ("D", 62), ("D#", 63), ("Eb", 63),
   ("E", 64), ("Fb", 64),
   ("F", 65), ("F#", 66), ("Gb", 66),
   ("G", 67), ("G#", 68), ("Ab", 68),
   ("A", 69), ("A#", 70), ("Bb", 70),
   ("B", 71), ("Cb", 71)]

/-! ## chords.py: parse_chord -/

/-- Python `str.strip()` on the character list of a string. -/
def trimChars (cs : List Char) : List Char :=
  ((cs.dropWhile Char.isWhitespace).reverse.dropWhile Char.isWhitespace).reverse

/-- Root extraction of parse_chord: two characters when the second is `#` or
`b`, otherwise one; `none` for the empty symbol. -/
def splitRootQuality : List Char → Option (String × List Char)
  | [] => none
  | [c1] => some (String.mk [c1], [])
  | c1 :: c2 :: rest =>
    if c2 = '#' ∨ c2 = 'b' then some (String.mk [c1, c2], rest)
    else some (String.mk [c1], c2 :: rest)

/-- The exact-match loop of parse_chord over CHORD_INTERVALS.  The source
iterates the keys longest-first and compares `quality_lower == key.lower()`;
since every key is already lowercase and keys are pairwise distinct, at most
one key can match exactly, so the iteration order is irrelevant and the loop
is a plain lookup. -/
def lookupQuality (qualityLower : String) : Option (List ℤ) :=
  (CHORD_INTERVALS.find? (fun p => p.1 == qualityLower)).map (fun p => p.2)

/-- The alias fallback of parse_chord, for qualities with no exact table match.
The Python condition parses as
`startswith("min") or (startswith("m") and not startswith("maj"))`. -/
def fallbackIntervals (qualityLower : List Char) : List ℤ :=
  if ("min".data.isPrefixOf qualityLower) ∨
     (("m".data.isPrefixOf qualityLower) ∧ ¬ ("maj".data.isPrefixOf qualityLower)) then
    if '7' ∈ qualityLower then [0, 3, 7, 10] else [0, 3, 7]
  else if "maj".data.isPrefixOf qualityLower then
    if '7' ∈ qualityLower then [0, 4, 7, 11] else [0, 4, 7]
  else
    [0, 4, 7]

/-- parse_chord of chords.py.  ValueError is modelled as `Except.error` with
the message text of the source. -/
def parse_chord (symbol : String) : Except String (List ℤ) :=
  let cs := trimChars symbol.data
  match splitRootQuality cs with
  | none => .error "Empty chord symbol"
  | some (rootName, quality) =>
    match (NOTE_MAP.find? (fun p => p.1 == rootName)).map (fun p => p.2) with
    | none =>
      .error ("Unknown root note: " ++ "'" ++ rootName ++ "' in chord '"
               ++ String.mk cs ++ "'")
    | some rootPitch =>
      let qualityLower := quality.map Char.toLower
      let intervals :=
        match lookupQuality (String.mk qualityLower) with
        | some iv => iv
        | none => fallbackIntervals qualityLower
      .ok (intervals.map (fun i => rootPitch + i))

/-! ## chords.py: note generation of generate_chord_progression -/

/-- The per-chord body of the generate_chord_progression loop: octave shift,
clamp to [0,127], then place the tones at the index-derived time slot in the
requested pattern. -/
def placeChord (bpm : ℚ) (beatsPerChord : ℕ) (octaveShift : ℤ) (velocity : ℤ)
    (pattern : String) (chordIdx : ℕ) (parsed : List ℤ) : List Note :=
  let pitches := parsed.map (fun p => p + octaveShift * 12)
  let pitches := pitches.map (fun p => max 0 (min 127 p))
  let secondsPerBeat := 60 / bpm
  let chordStart := (chordIdx : ℚ) * (beatsPerChord : ℚ) * secondsPerBeat
  let chordDuration := (beatsPerChord : ℚ) * secondsPerBeat
  if pattern = "arpeggiated" then
    let arpDelay := secondsPerBeat / (pitches.length : ℚ)
    pitches.enum.map (fun pr =>
      { pitch := pr.2, start := chordStart + (pr.1 : ℚ) * arpDelay,
        stop := chordStart + chordDuration, velocity := velocity })
  else
    pitches.map (fun pitch =>
      { pitch := pitch, start := chordStart,
        stop := chordStart + chordDuration, velocity := velocity })

/-- The `for chord_idx, chord_symbol in enumerate(chords)` loop of
generate_chord_progression: a symbol whose parse raises ValueError is skipped
(`continue`); all other symbols contribute notes at their own index slot. -/
def chordLoop (bpm : ℚ) (beatsPerChord : ℕ) (octaveShift : ℤ) (velocity : ℤ)
    (pattern : String) : ℕ → List String → List Note
  | _, [] => []
  | idx, sym :: rest =>
    (match parse_chord sym with
     | .error _ => []
     | .ok parsed => placeChord bpm beatsPerChord octaveShift velocity pattern idx parsed)
      ++ chordLoop bpm beatsPerChord octaveShift velocity pattern (idx + 1) rest

/-- The note-generation core of generate_chord_progression (the MIDI container
writing and synthesis around it are external). -/
def chordProgressionNotes (bpm : ℚ) (beatsPerChord : ℕ) (octaveShift : ℤ)
    (velocity : ℤ) (pattern : String) (chords : List String) : List Note :=
  chordLoop bpm beatsPerChord octaveShift velocity pattern 0 chords

/-! ## sampler.py: render_with_sample -/

def SAMPLE_RATE : ℕ := 44100

/-- `np.max(np.abs(buf))`, with 0 for the empty buffer (the source never takes
the peak of an empty buffer: the output holds at least one second of samples). -/
def maxAbs (buf : List ℚ) : ℚ := buf.foldl (fun m x => max m |x|) 0

/-- The final normalization of render_with_sample: scale the whole buffer so
the peak is 0.9 of full scale, leaving an exactly silent buffer unchanged. -/
def normalizeBuffer (buf : List ℚ) : List ℚ :=
  let peak := maxAbs buf
  if 0 < peak then buf.map (fun x => x / peak * (9/10)) else buf

/-- `midi.get_end_time()` for a file holding only the given notes: the largest
note end, 0 when there are none. -/
def noteListEnd (notes : List Note) : ℚ := notes.foldl (fun m n => max m n.stop) 0

/-- `np.linspace(1.0, 0.0, n)`. -/
def linspace1to0 (n : ℕ) : List ℚ :=
  if n = 0 then []
  else if n = 1 then [1]
  else (List.range n).map (fun i => 1 - (i : ℚ) / ((n : ℚ) - 1))

/-- `shifted[-fadeLen:] *= np.linspace(1.0, 0.0, fadeLen)`; the call sites
guarantee `fadeLen ≤ buf.length`. -/
def applyFade (buf : List ℚ) (fadeLen : ℕ) : List ℚ :=
  buf.take (buf.length - fadeLen)
    ++ List.zipWith (fun x f => x * f) (buf.drop (buf.length - fadeLen)) (linspace1to0 fadeLen)

/-- `buf[offset:offset+len(seg)] += seg`; the call sites guarantee the slice
lies inside the buffer. -/
def addAt (buf : List ℚ) (offset : ℕ) (seg : List ℚ) : List ℚ :=
  buf.take offset
    ++ List.zipWith (fun x y => x + y) ((buf.drop offset).take seg.length) seg
    ++ buf.drop (offset + seg.length)

/-- The per-note body of the render_with_sample loop.  The pitch-shift routine
is external DSP (librosa.effects.pitch_shift) and is taken as a parameter; the
source skips it when the shift is below 0.01 semitones.  Note times are
nonnegative in every reachable call, so `int(note.start * sr)` is modelled
through `Int.toNat`. -/
def placeNote (pitchShift : ℚ → List ℚ → List ℚ) (sample : List ℚ) (basePitch : ℚ)
    (buf : List ℚ) (note : Note) : List ℚ :=
  let nSteps := (note.pitch : ℚ) - basePitch
  let shifted := if |nSteps| < 1/100 then sample else pitchShift nSteps sample
  let velocityScale := (note.velocity : ℚ) / 127
  let shifted := shifted.map (fun x => x * velocityScale)
  let noteDurSamples := pyInt ((note.stop - note.start) * (SAMPLE_RATE : ℚ))
  let shifted :=
    if noteDurSamples < (shifted.length : ℤ) then
      let fadeLen := min (pyInt ((1/100) * (SAMPLE_RATE : ℚ))) noteDurSamples
      let truncated := shifted.take noteDurSamples.toNat
      if 0 < fadeLen then applyFade truncated fadeLen.toNat else truncated
    else shifted
  let startSample := (pyInt (note.start * (SAMPLE_RATE : ℚ))).toNat
  let endSample := startSample + shifted.length
  let buf := if buf.length < endSample then buf ++ List.replicate (endSample - buf.length) 0 else buf
  addAt buf startSample shifted

/-- The mixing phase of render_with_sample: allocate `(end_time + 1s)` of
silence (with `end_time` forced to 1s when the MIDI end time is ≤ 0), then
additively place every note. -/
def mixBuffer (pitchShift : ℚ → List ℚ → List ℚ) (sample : List ℚ) (basePitch : ℚ)
    (notes : List Note) : List ℚ :=
  let endTime := noteListEnd notes
  let endTime := if endTime ≤ 0 then 1 else endTime
  let outputLength := (pyInt ((endTime + 1) * (SAMPLE_RATE : ℚ))).toNat
  let output := List.replicate outputLength (0 : ℚ)
  notes.foldl (placeNote pitchShift sample basePitch) output

/-- render_with_sample of sampler.py, from the loaded sample and note list to
the final buffer handed to the file writer: mix additively, then normalize. -/
def render_with_sample (pitchShift : ℚ → List ℚ → List ℚ) (sample : List ℚ)
    (basePitch : ℚ) (notes : List Note) : List ℚ :=
  normalizeBuffer (mixBuffer pitchShift sample basePitch notes)

/-- A pitch shift that returns the sample unchanged, used to instantiate the
external-DSP parameter in concrete examples. -/
def identityShift : ℚ → List ℚ → List ℚ := fun _ s => s

/-- The invariant the merge loop establishes between consecutive emitted notes:
the pair is not mergeable (different pitch, or a gap of at least MERGE_GAP_SEC). -/
def noMerge (a b : Note) : Prop :=
  ¬(b.pitch = a.pitch ∧ b.start - a.stop < MERGE_GAP_SEC)

/-- The twelve pitch classes, as integers. -/
def range12Z : List ℤ := [0, 1, 2, 3, 4, 5, 6, 7, 8, 9, 10, 11]

/-- A concrete 9-note start-sorted sequence spanning 0.7s (about 12.9 notes per
second, above MAX_NOTES_PER_SECOND), used to exercise the density cap.  Its
greedy windows are anchored at 0, 0.26 and 0.52; the kept notes at 0.50, 0.52
and 0.60 all fall into the fixed partition window [0.5, 0.75). -/
def exNotes : List Note :=
  [⟨60, 0, 1/10, 80⟩,
   ⟨61, 1/20, 3/20, 80⟩,
   ⟨62, 1/10, 1/5, 80⟩,
   ⟨63, 3/20, 1/4, 80⟩,
   ⟨64, 13/50, 9/25, 100⟩,
   ⟨65, 3/10, 2/5, 50⟩,
   ⟨66, 1/2, 3/5, 100⟩,
   ⟨67, 13/25, 31/50, 90⟩,
   ⟨68, 3/5, 7/10, 85⟩]

/-! # Theorems -/

/-! ## Merge lemmas -/

theorem mergeLoop_start_sublist (l : List Note) : ∀ cur : Note,
    List.Sublist ((mergeLoop cur l).map Note.start) (cur.start :: l.map Note.start) := by
  induction l with
  | nil =>
    intro cur
    simp [mergeLoop]
  | cons n rest ih =>
    intro cur
    by_cases h : n.pitch = cur.pitch ∧ n.start - cur.stop < MERGE_GAP_SEC
    · rw [mergeLoop, if_pos h]
      refine (ih _).trans ?_
      exact List.Sublist.cons₂ _ (List.sublist_cons_self _ _)
    · rw [mergeLoop, if_neg h]
      simp only [List.map_cons]
      exact List.Sublist.cons₂ _ (ih n)

theorem mergeLoop_head (l : List Note) : ∀ cur : Note,
    ∃ c cs, mergeLoop cur l = c :: cs ∧ c.pitch = cur.pitch ∧ c.start = cur.start := by
  induction l with
  | nil =>
    intro cur
    exact ⟨cur, [], rfl, rfl, rfl⟩
  | cons n rest ih =>
    intro cur
    by_cases h : n.pitch = cur.pitch ∧ n.start - cur.stop < MERGE_GAP_SEC
    · rw [mergeLoop, if_pos h]
      obtain ⟨c, cs, heq, hp, hs⟩ := ih _
      exact ⟨c, cs, heq, hp, hs⟩
    · rw [mergeLoop, if_neg h]
      exact ⟨cur, mergeLoop n rest, rfl, rfl, rfl⟩

theorem mergeLoop_chain (l : List Note) : ∀ cur : Note,
    List.Chain' noMerge (mergeLoop cur l) := by
  induction l with
  | nil =>
    intro cur
    simp [mergeLoop]
  | cons n rest ih =>
    intro cur
    by_cases h : n.pitch = cur.pitch ∧ n.start - cur.stop < MERGE_GAP_SEC
    · rw [mergeLoop, if_pos h]
      exact ih _
    · rw [mergeLoop, if_neg h]
      rw [List.chain'_cons']
      refine ⟨?_, ih n⟩
      intro b hb
      obtain ⟨c, cs, heq, hp, hs⟩ := mergeLoop_head rest n
      rw [heq] at hb
      simp only [List.head?_cons, Option.mem_def, Option.some.injEq] at hb
      subst hb
      intro hcontra
      rw [hp, hs] at hcontra
      exact h hcontra

theorem mergeLoop_eq_of_chain (l : List Note) : ∀ cur : Note,
    (∀ b ∈ l.head?, noMerge cur b) → List.Chain' noMerge l →
    mergeLoop cur l = cur :: l := by
  induction l with
  | nil =>
    intro cur _ _
    rfl
  | cons n rest ih =>
    intro cur hhead hchain
    have hcn : noMerge cur n := hhead n rfl
    rw [mergeLoop, if_neg hcn]
    rw [List.chain'_cons'] at hchain
    rw [ih n hchain.1 hchain.2]

/-- C4: the merge step merges an adjacent same-pitch pair with gap strictly
below MERGE_GAP_SEC by extending the earlier note to the larger end and the
larger velocity, never altering any start (the output starts form a sublist of
the input starts); two same-pitch notes 0.05s apart merge into one spanning
both, while two 0.07s apart stay distinct. -/
theorem merge_adjacent_same_pitch :
    (∀ prev next : Note,
      mergeNotes [prev, next] =
        if next.pitch = prev.pitch ∧ next.start - prev.stop < MERGE_GAP_SEC then
          [{ prev with stop := max prev.stop next.stop,
                       velocity := max prev.velocity next.velocity }]
        else [prev, next]) ∧
    (∀ l : List Note, List.Sublist ((mergeNotes l).map Note.start) (l.map Note.start)) ∧
    mergeNotes [⟨60, 0, 1, 80⟩, ⟨60, 21/20, 2, 90⟩] = [⟨60, 0, 2, 90⟩] ∧
    mergeNotes [⟨60, 0, 1, 80⟩, ⟨60, 107/100, 2, 90⟩]
      = [⟨60, 0, 1, 80⟩, ⟨60, 107/100, 2, 90⟩] := by
  refine ⟨?_, ?_, ?_, ?_⟩
  · intro prev next
    by_cases h : next.pitch = prev.pitch ∧ next.start - prev.stop < MERGE_GAP_SEC
    · rw [show mergeNotes [prev, next] = mergeLoop prev [next] from rfl,
          mergeLoop, if_pos h, if_pos h]
      rfl
    · rw [show mergeNotes [prev, next] = mergeLoop prev [next] from rfl,
          mergeLoop, if_neg h, if_neg h]
      rfl
  · intro l
    cases l with
    | nil => simp [mergeNotes]
    | cons n rest =>
      simpa [mergeNotes] using mergeLoop_start_sublist rest n
  · norm_num [mergeNotes, mergeLoop, MERGE_GAP_SEC]
  · norm_num [mergeNotes, mergeLoop, MERGE_GAP_SEC]

/-- C6: the merge step is idempotent; merging an already-merged sequence
returns it unchanged. -/
theorem merge_idempotent : ∀ l : List Note, mergeNotes (mergeNotes l) = mergeNotes l := by
  intro l
  cases l with
  | nil => rfl
  | cons n rest =>
    show mergeNotes (mergeLoop n rest) = mergeLoop n rest
    obtain ⟨c, cs, heq, _, _⟩ := mergeLoop_head rest n
    rw [heq]
    show mergeLoop c cs = c :: cs
    have hch := mergeLoop_chain rest n
    rw [heq, List.chain'_cons'] at hch
    exact mergeLoop_eq_of_chain cs c hch.1 hch.2

/-! ## Quantization -/

/-- C2, counterexample: the claim says every bpm ≤ 0 makes quantization fail,
but bpm = -120 is accepted and a computed value is silently returned. -/
theorem quantize_negative_bpm_silent :
    ((-120 : ℚ) ≤ 0) ∧ quantizeTime 1 (-120) "1/4" = some 1 := by
  refine ⟨by norm_num, ?_⟩
  norm_num [quantizeTime, subdivisionsFor, divisionsTable, List.find?, pyRound]

/-- C2, amended: quantization (grid not "off") with bpm = 0 fails with a
division-by-zero error rather than silently returning a defaulted result; a
strictly negative bpm is not rejected. -/
theorem quantize_zero_bpm_fails :
    ∀ (t : ℚ) (q : String), q ≠ "off" → quantizeTime t 0 q = none := by
  intro t q hq
  simp [quantizeTime, hq]

theorem quantize_zero_bpm_fails_witness : quantizeTime 5 0 "1/8" = none :=
  quantize_zero_bpm_fails 5 "1/8" (by decide)

/-- C9: for a grid string that is neither "off" nor a known subdivision,
quantization does not fail: it silently falls back to one subdivision per beat
and snaps to the quarter-note grid `round(t*bpm/60)*(60/bpm)`. -/
theorem quantize_unknown_grid_falls_back :
    ∀ (t bpm : ℚ) (q : String), 0 < bpm → q ≠ "off" → q ≠ "1/4" → q ≠ "1/8" →
      q ≠ "1/16" → q ≠ "1/32" →
      quantizeTime t bpm q = some ((pyRound (t * bpm / 60) : ℚ) * (60 / bpm)) := by
  intro t bpm q hbpm hoff h4 h8 h16 h32
  have e4 : (("1/4" : String) == q) = false := beq_eq_false_iff_ne.mpr (fun e => h4 e.symm)
  have e8 : (("1/8" : String) == q) = false := beq_eq_false_iff_ne.mpr (fun e => h8 e.symm)
  have e16 : (("1/16" : String) == q) = false := beq_eq_false_iff_ne.mpr (fun e => h16 e.symm)
  have e32 : (("1/32" : String) == q) = false := beq_eq_false_iff_ne.mpr (fun e => h32 e.symm)
  have hsub : subdivisionsFor q = 1 := by
    simp [subdivisionsFor, divisionsTable, List.find?, e4, e8, e16, e32]
  rw [quantizeTime, if_neg hoff]
  simp only [hsub, if_neg hbpm.ne', Nat.cast_one, div_one, div_div_eq_mul_div]

theorem quantize_unknown_grid_falls_back_witness :
    quantizeTime 1 120 "1/3" = some ((pyRound ((1 : ℚ) * 120 / 60) : ℚ) * (60 / 120)) :=
  quantize_unknown_grid_falls_back 1 120 "1/3" (by norm_num) (by decide) (by decide)
    (by decide) (by decide) (by decide)

/-! ## Scale snapping -/

theorem snapLoop_mem_or_self (offs : List ℤ) : ∀ (p : ℤ) (valid : List ℤ),
    snapLoop p valid offs ∈ valid ∨ snapLoop p valid offs = p := by
  induction offs with
  | nil =>
    intro p valid
    right
    rfl
  | cons o rest ih =>
    intro p valid
    by_cases h1 : p + o ∈ valid
    · rw [snapLoop, if_pos h1]
      exact Or.inl h1
    · by_cases h2 : p - o ∈ valid
      · rw [snapLoop, if_neg h1, if_pos h2]
        exact Or.inl h2
      · rw [snapLoop, if_neg h1, if_neg h2]
        exact ih p valid

/-- C10: scale snapping is total; for every pitch and membership list the
result is a member of the list or the pitch itself, and on the empty list
(no member within reach) the pitch is returned unchanged. -/
theorem snap_total :
    ∀ (p : ℤ) (valid : List ℤ),
      (snapToScale p valid ∈ valid ∨ snapToScale p valid = p) ∧
      snapToScale p ([] : List ℤ) = p := by
  intro p valid
  constructor
  · by_cases h : p ∈ valid
    · rw [snapToScale, if_pos h]
      exact Or.inl h
    · rw [snapToScale, if_neg h]
      exact snapLoop_mem_or_self _ p valid
  · simp [snapToScale, snapLoop]

/-! ## Scale membership -/

theorem mem_range12Z_iff (x : ℤ) : x ∈ range12Z ↔ 0 ≤ x ∧ x < 12 := by
  simp only [range12Z, List.mem_cons, List.mem_singleton, List.not_mem_nil, or_false]
  omega

theorem keyOffset_mem (key : String) : keyOffset key ∈ range12Z := by
  rw [keyOffset]
  cases hf : KEY_OFFSETS.find? (fun p => p.1 == key) with
  | none =>
    simp only [Option.map_none', Option.getD_none]
    decide
  | some pr =>
    have hmem := List.mem_of_find?_eq_some hf
    have hall : ∀ p ∈ KEY_OFFSETS, p.2 ∈ range12Z := by decide
    simp only [Option.map_some', Option.getD_some]
    exact hall pr hmem

theorem mem_buildScaleSet (key scale : String) (x : ℤ) :
    x ∈ buildScaleSet key scale ↔
      0 ≤ x ∧ x < 128 ∧ x % 12 ∈ pitchClassesFor key scale := by
  unfold buildScaleSet
  rw [List.mem_filter, List.mem_map]
  simp only [List.mem_range, decide_eq_true_eq]
  constructor
  · rintro ⟨⟨m, hm, rfl⟩, hmem⟩
    exact ⟨by omega, by omega, hmem⟩
  · rintro ⟨h0, h128, hmem⟩
    exact ⟨⟨x.toNat, by omega, by omega⟩, hmem⟩

/-- In the major and the minor interval pattern, at any root, every pitch class
out of the scale has both neighbouring pitch classes in the scale (every gap in
the pattern is at most two semitones). -/
theorem major_minor_gap :
    ∀ s ∈ (["major", "minor"] : List String), ∀ r ∈ range12Z, ∀ c ∈ range12Z,
      c ∉ (scaleIntervalsFor s).map (fun i => (r + i) % 12) →
      ((c + 1) % 12 ∈ (scaleIntervalsFor s).map (fun i => (r + i) % 12) ∧
       (c + 11) % 12 ∈ (scaleIntervalsFor s).map (fun i => (r + i) % 12)) := by decide

theorem snap_into_scale (s : String)
    (hgap : ∀ r ∈ range12Z, ∀ c ∈ range12Z,
      c ∉ (scaleIntervalsFor s).map (fun i => (r + i) % 12) →
      ((c + 1) % 12 ∈ (scaleIntervalsFor s).map (fun i => (r + i) % 12) ∧
       (c + 11) % 12 ∈ (scaleIntervalsFor s).map (fun i => (r + i) % 12)))
    (key : String) (p : ℤ) (h0 : 0 ≤ p) (h128 : p < 128) :
    snapToScale p (buildScaleSet key s) ∈ buildScaleSet key s := by
  by_cases hp : p ∈ buildScaleSet key s
  · rw [snapToScale, if_pos hp]
    exact hp
  · rw [snapToScale, if_neg hp]
    have hr := keyOffset_mem key
    have hcls : p % 12 ∉ pitchClassesFor key s := by
      intro hc
      exact hp ((mem_buildScaleSet key s p).mpr ⟨h0, h128, hc⟩)
    have hcrange : p % 12 ∈ range12Z := by
      rw [mem_range12Z_iff]
      exact ⟨Int.emod_nonneg p (by norm_num), Int.emod_lt_of_pos p (by norm_num)⟩
    have hgap2 := hgap (keyOffset key) hr (p % 12) hcrange
      (by simpa [pitchClassesFor] using hcls)
    by_cases h127 : p < 127
    · have hmem1 : p + 1 ∈ buildScaleSet key s := by
        rw [mem_buildScaleSet]
        refine ⟨by omega, by omega, ?_⟩
        have hmod : (p + 1) % 12 = (p % 12 + 1) % 12 := by omega
        rw [hmod]
        simpa [pitchClassesFor] using hgap2.1
      simp only [snapLoop]
      rw [if_pos hmem1]
      exact hmem1
    · have hp127 : p = 127 := by omega
      subst hp127
      have hmem128 : ¬((127 : ℤ) + 1 ∈ buildScaleSet key s) := by
        rw [mem_buildScaleSet]
        intro hcontra
        have := hcontra.2.1
        norm_num at this
      have hmem126 : (127 : ℤ) - 1 ∈ buildScaleSet key s := by
        rw [mem_buildScaleSet]
        refine ⟨by norm_num, by norm_num, ?_⟩
        have hmod : ((127 : ℤ) - 1) % 12 = ((127 : ℤ) % 12 + 11) % 12 := by decide
        rw [hmod]
        simpa [pitchClassesFor] using hgap2.2
      simp only [snapLoop]
      rw [if_neg hmem128, if_pos hmem126]
      exact hmem126

theorem snapLoop_find (offs : List ℤ) : ∀ (p : ℤ) (valid : List ℤ),
    snapLoop p valid offs =
      ((offs.flatMap (fun off => [p + off, p - off])).find?
        (fun c => decide (c ∈ valid))).getD p := by
  induction offs with
  | nil =>
    intro p valid
    rfl
  | cons o rest ih =>
    intro p valid
    have hflat : ((o :: rest).flatMap (fun off => [p + off, p - off]))
        = (p + o) :: (p - o) :: rest.flatMap (fun off => [p + off, p - off]) := by
      simp [List.flatMap_cons]
    by_cases h1 : p + o ∈ valid
    · rw [snapLoop, if_pos h1, hflat, List.find?_cons_of_pos _ (by simpa using h1)]
      rfl
    · by_cases h2 : p - o ∈ valid
      · rw [snapLoop, if_neg h1, if_pos h2, hflat,
          List.find?_cons_of_neg _ (by simpa using h1),
          List.find?_cons_of_pos _ (by simpa using h2)]
        rfl
      · rw [snapLoop, if_neg h1, if_neg h2, hflat,
          List.find?_cons_of_neg _ (by simpa using h1),
          List.find?_cons_of_neg _ (by simpa using h2)]
        exact ih p valid

/-- C5: a pitch in the scale set is returned unchanged; an out-of-scale pitch
is replaced by the first member along the examination order
`p, p+1, p-1, ..., p+6, p-6`; and for the major and minor patterns (any key)
the search always lands inside the scale for every MIDI pitch. -/
theorem snap_search_order_and_scales :
    (∀ (p : ℤ) (valid : List ℤ), p ∈ valid → snapToScale p valid = p) ∧
    (∀ (p : ℤ) (valid : List ℤ),
      snapToScale p valid =
        ((snapCandidates p).find? (fun c => decide (c ∈ valid))).getD p) ∧
    (∀ (key : String) (p : ℤ), 0 ≤ p → p < 128 →
      snapToScale p (buildScaleSet key "major") ∈ buildScaleSet key "major" ∧
      snapToScale p (buildScaleSet key "minor") ∈ buildScaleSet key "minor") := by
  refine ⟨?_, ?_, ?_⟩
  · intro p valid h
    rw [snapToScale, if_pos h]
  · intro p valid
    by_cases h : p ∈ valid
    · rw [snapToScale, if_pos h, snapCandidates,
        List.find?_cons_of_pos _ (by simpa using h)]
      rfl
    · rw [snapToScale, if_neg h, snapCandidates,
        List.find?_cons_of_neg _ (by simpa using h)]
      exact snapLoop_find _ p valid
  · intro key p h0 h128
    exact ⟨snap_into_scale "major" (major_minor_gap "major" (by decide)) key p h0 h128,
           snap_into_scale "minor" (major_minor_gap "minor" (by decide)) key p h0 h128⟩

theorem snap_search_order_and_scales_witness :
    snapToScale 60 [60] = 60 ∧
    snapToScale 61 (buildScaleSet "C" "major") ∈ buildScaleSet "C" "major" :=
  ⟨snap_search_order_and_scales.1 60 [60] (by decide),
   (snap_search_order_and_scales.2.2 "C" 61 (by decide) (by decide)).1⟩

/-! ## Chord parsing and progression generation -/

theorem chordLoop_skip (bpm : ℚ) (beats : ℕ) (oct vel : ℤ) (pattern : String)
    (bad e : String) (hbad : parse_chord bad = .error e) :
    ∀ (pre : List String) (post : List String) (i : ℕ),
      chordLoop bpm beats oct vel pattern i (pre ++ bad :: post)
        = chordLoop bpm beats oct vel pattern i pre
          ++ chordLoop bpm beats oct vel pattern (i + pre.length + 1) post := by
  intro pre
  induction pre with
  | nil =>
    intro post i
    simp [chordLoop, hbad]
  | cons s pre ih =>
    intro post i
    simp only [List.cons_append, chordLoop, List.length_cons, List.append_eq]
    rw [ih post (i + 1), List.append_assoc]
    have harith : i + 1 + pre.length + 1 = i + (pre.length + 1) + 1 := by omega
    rw [harith]

/-- C7: a chord symbol whose root name is not in NOTE_MAP makes parse_chord
fail with a per-symbol error, and the generation loop skips exactly the failing
symbol: every other chord is still generated at the time slot derived from its
own original index, so one bad symbol is never fatal to the progression. -/
theorem chord_parse_error_isolated :
    (∀ (symbol rootName : String) (quality : List Char),
      splitRootQuality (trimChars symbol.data) = some (rootName, quality) →
      NOTE_MAP.find? (fun p => p.1 == rootName) = none →
      parse_chord symbol = .error ("Unknown root note: " ++ "'" ++ rootName
        ++ "' in chord '" ++ String.mk (trimChars symbol.data) ++ "'")) ∧
    (∀ (bpm : ℚ) (beats : ℕ) (oct vel : ℤ) (pattern : String) (bad e : String),
      parse_chord bad = .error e →
      ∀ (pre post : List String),
        chordProgressionNotes bpm beats oct vel pattern (pre ++ bad :: post)
          = chordLoop bpm beats oct vel pattern 0 pre
            ++ chordLoop bpm beats oct vel pattern (pre.length + 1) post) := by
  constructor
  · intro symbol rootName quality hsplit hroot
    simp [parse_chord, hsplit, hroot]
  · intro bpm beats oct vel pattern bad e hbad pre post
    rw [chordProgressionNotes, chordLoop_skip bpm beats oct vel pattern bad e hbad pre post 0]
    simp

theorem chord_parse_error_isolated_witness :
    parse_chord "Hmaj" = .error "Unknown root note: 'H' in chord 'Hmaj'" ∧
    chordProgressionNotes 120 4 0 80 "block" ["C", "Hmaj", "G"]
      = chordLoop 120 4 0 80 "block" 0 ["C"] ++ chordLoop 120 4 0 80 "block" 2 ["G"] := by
  have herr : parse_chord "Hmaj" = .error "Unknown root note: 'H' in chord 'Hmaj'" := by
    rw [chord_parse_error_isolated.1 "Hmaj" "H" ['m', 'a', 'j'] (by decide) (by decide)]
    simp only [Except.error.injEq]
    decide
  exact ⟨herr,
    chord_parse_error_isolated.2 120 4 0 80 "block" "Hmaj" _ herr ["C"] ["G"]⟩

/-! ## Density cap -/

theorem capLoop_eq (l : List Note) : ∀ (ws : ℚ) (cur acc : List Note),
    capLoop ws cur acc l
      = acc ++ (groupLoop ws cur l).flatMap
          (fun w => (sortByVelDesc w).take maxPerWindow) := by
  induction l with
  | nil =>
    intro ws cur acc
    simp [capLoop, groupLoop]
  | cons n rest ih =>
    intro ws cur acc
    simp only [capLoop, groupLoop]
    by_cases h : ws + 25/100 ≤ n.start
    · simp only [if_pos h, ih, List.flatMap_cons, List.append_assoc]
    · simp only [if_neg h, ih]

/-- C1, amended: when the density cap triggers (positive span, more than
MAX_NOTES_PER_SECOND notes per second), the notes are partitioned into the
greedy 0.25s windows of groupWindows — each window anchored at its own first
note, not a fixed partition anchored at the first note of the sequence — at
most maxPerWindow = 2 notes are kept per greedy window by descending velocity
with ties in original order, and the result is re-sorted by start. -/
theorem density_cap_greedy (notes : List Note) (h0 : notes ≠ [])
    (h1 : 0 < span notes)
    (h2 : MAX_NOTES_PER_SECOND < (notes.length : ℚ) / span notes) :
    densityCap notes
      = sortByStart ((groupWindows notes).flatMap
          (fun w => (sortByVelDesc w).take maxPerWindow)) ∧
    ∀ w ∈ groupWindows notes, ((sortByVelDesc w).take maxPerWindow).length ≤ maxPerWindow := by
  obtain ⟨first, rest, rfl⟩ := List.exists_cons_of_ne_nil h0
  constructor
  · simp only [densityCap]
    rw [if_pos h1, if_pos h2]
    have hstep : capLoop first.start [] [] (first :: rest)
        = capLoop first.start [first] [] rest := by
      rw [capLoop, if_neg (by norm_num : ¬ (first.start + 25/100 ≤ first.start))]
      norm_num
    rw [hstep, capLoop_eq]
    simp [groupWindows]
  · intro w hw
    simp only [List.length_take]
    exact min_le_left _ _

theorem density_cap_greedy_witness :
    densityCap exNotes
      = sortByStart ((groupWindows exNotes).flatMap
          (fun w => (sortByVelDesc w).take maxPerWindow)) ∧
    ∀ w ∈ groupWindows exNotes, ((sortByVelDesc w).take maxPerWindow).length ≤ maxPerWindow :=
  density_cap_greedy exNotes (by simp [exNotes]) (by norm_num [exNotes, span])
    (by norm_num [exNotes, span, MAX_NOTES_PER_SECOND])

/-- C1, counterexample to the fixed-partition reading: exNotes exceeds the
density threshold, the cap keeps the notes starting at 0.50, 0.52 and 0.60 —
three distinct notes — and all three starts lie in `[t0 + 2*0.25, t0 + 3*0.25)`
with `t0 = 0` the first note start, one fixed 0.25s partition window; yet
maxPerWindow is 2.  So the fixed partition anchored at the first note start
can retain more than `ceil(maxNotesPerSecond*0.25) = 2` notes per window. -/
theorem density_cap_fixed_partition_cex :
    MAX_NOTES_PER_SECOND < (exNotes.length : ℚ) / span exNotes ∧
    densityCap exNotes =
      [⟨60, 0, 1/10, 80⟩, ⟨61, 1/20, 3/20, 80⟩, ⟨64, 13/50, 9/25, 100⟩,
       ⟨66, 1/2, 3/5, 100⟩, ⟨67, 13/25, 31/50, 90⟩, ⟨68, 3/5, 7/10, 85⟩] ∧
    (⟨66, 1/2, 3/5, 100⟩ : Note) ∈ densityCap exNotes ∧
    (⟨67, 13/25, 31/50, 90⟩ : Note) ∈ densityCap exNotes ∧
    (⟨68, 3/5, 7/10, 85⟩ : Note) ∈ densityCap exNotes ∧
    ((0 : ℚ) + 2 * (25/100) ≤ 1/2 ∧ (1/2 : ℚ) < 0 + 3 * (25/100)) ∧
    ((0 : ℚ) + 2 * (25/100) ≤ 13/25 ∧ (13/25 : ℚ) < 0 + 3 * (25/100)) ∧
    ((0 : ℚ) + 2 * (25/100) ≤ 3/5 ∧ (3/5 : ℚ) < 0 + 3 * (25/100)) ∧
    maxPerWindow = 2 := by
  have hcap : densityCap exNotes =
      [⟨60, 0, 1/10, 80⟩, ⟨61, 1/20, 3/20, 80⟩, ⟨64, 13/50, 9/25, 100⟩,
       ⟨66, 1/2, 3/5, 100⟩, ⟨67, 13/25, 31/50, 90⟩, ⟨68, 3/5, 7/10, 85⟩] := by
    norm_num [densityCap, exNotes, span, capLoop, sortByVelDesc, insertVel,
      sortByStart, insertStart, maxPerWindow, pyInt, MAX_NOTES_PER_SECOND]
  refine ⟨by norm_num [MAX_NOTES_PER_SECOND, exNotes, span], hcap, ?_, ?_, ?_,
    by norm_num, by norm_num, by norm_num,
    by norm_num [maxPerWindow, pyInt, MAX_NOTES_PER_SECOND]⟩
  · rw [hcap]
    simp
  · rw [hcap]
    simp
  · rw [hcap]
    simp

set_option maxHeartbeats 1000000

/-! ## Sample compositor -/

theorem foldl_maxAbs_zeros (l : List ℚ) (hl : ∀ x ∈ l, x = 0) :
    ∀ m : ℚ, 0 ≤ m → List.foldl (fun a x => max a |x|) m l = m := by
  induction l with
  | nil =>
    intro m _
    rfl
  | cons x xs ih =>
    intro m hm
    have hx : x = 0 := hl x (by simp)
    simp only [List.foldl_cons, hx, abs_zero]
    rw [max_eq_left hm]
    exact ih (fun y hy => hl y (List.mem_cons_of_mem x hy)) m hm

theorem maxAbs_zeros (l : List ℚ) (hl : ∀ x ∈ l, x = 0) : maxAbs l = 0 :=
  foldl_maxAbs_zeros l hl 0 le_rfl

theorem foldl_maxAbs_map_mul (l : List ℚ) (c : ℚ) (hc : 0 ≤ c) :
    ∀ m : ℚ, List.foldl (fun a x => max a |x|) (m * c) (l.map (fun x => x * c))
      = (List.foldl (fun a x => max a |x|) m l) * c := by
  induction l with
  | nil =>
    intro m
    rfl
  | cons x xs ih =>
    intro m
    simp only [List.map_cons, List.foldl_cons]
    rw [show |x * c| = |x| * c by rw [abs_mul, abs_of_nonneg hc],
      ← max_mul_of_nonneg m |x| hc]
    exact ih (max m |x|)

theorem maxAbs_map_mul (l : List ℚ) (c : ℚ) (hc : 0 ≤ c) :
    maxAbs (l.map (fun x => x * c)) = maxAbs l * c := by
  have h := foldl_maxAbs_map_mul l c hc 0
  rw [zero_mul] at h
  exact h

theorem normalizeBuffer_peak (buf : List ℚ) (h : 0 < maxAbs buf) :
    maxAbs (normalizeBuffer buf) = 9/10 := by
  simp only [normalizeBuffer]
  rw [if_pos h]
  have hmap : buf.map (fun x => x / maxAbs buf * (9/10))
      = buf.map (fun x => x * (9/10 / maxAbs buf)) := by
    apply List.map_congr_left
    intro x _
    rw [div_mul_eq_mul_div, mul_div_assoc]
  rw [hmap, maxAbs_map_mul buf _ (by positivity)]
  have hne : maxAbs buf ≠ 0 := ne_of_gt h
  field_simp
  ring

theorem mixBuffer_nil (ps : ℚ → List ℚ → List ℚ) (sample : List ℚ) (bp : ℚ) :
    mixBuffer ps sample bp [] = List.replicate 88200 0 := by
  simp only [mixBuffer, noteListEnd, List.foldl_nil]
  norm_num [pyInt, SAMPLE_RATE]
  decide

/-- C3, counterexample: on the empty note sequence the compositor returns an
all-zero buffer, but its length is 88200 samples (2 seconds at 44100 Hz), not
the 1 second the claim states: the MIDI end time 0 is forced to 1s and the
1s padding is added on top. -/
theorem compositor_empty_one_second_cex :
    render_with_sample identityShift [] 60 [] = List.replicate 88200 0 ∧
    (List.replicate 88200 (0 : ℚ)).length ≠ 1 * SAMPLE_RATE := by
  constructor
  · rw [render_with_sample, mixBuffer_nil]
    simp only [normalizeBuffer]
    rw [maxAbs_zeros _ (fun x hx => List.eq_of_mem_replicate hx)]
    norm_num
  · rw [List.length_replicate]
    norm_num [SAMPLE_RATE]

/-- C3, amended: on the empty note sequence the compositor returns an all-zero
buffer of exactly 2 seconds at the sample rate: the end time is defaulted to
1s (because the empty MIDI file ends at 0) and 1s of padding is added. -/
theorem compositor_empty_two_seconds (ps : ℚ → List ℚ → List ℚ) (sample : List ℚ)
    (bp : ℚ) : render_with_sample ps sample bp [] = List.replicate (2 * SAMPLE_RATE) 0 := by
  have h2 : 2 * SAMPLE_RATE = 88200 := by norm_num [SAMPLE_RATE]
  rw [render_with_sample, mixBuffer_nil, h2]
  simp only [normalizeBuffer]
  rw [maxAbs_zeros _ (fun x hx => List.eq_of_mem_replicate hx)]
  norm_num

/-- C8: after mixing, the compositor rescales the buffer so the peak absolute
amplitude is exactly 0.9 of full scale whenever the mixed peak is strictly
positive, and returns an exactly all-zero mixed buffer unchanged. -/
theorem compositor_normalizes_peak :
    (∀ (ps : ℚ → List ℚ → List ℚ) (sample : List ℚ) (bp : ℚ) (notes : List Note),
      0 < maxAbs (mixBuffer ps sample bp notes) →
      maxAbs (render_with_sample ps sample bp notes) = 9/10) ∧
    (∀ (ps : ℚ → List ℚ → List ℚ) (sample : List ℚ) (bp : ℚ) (notes : List Note),
      (∀ x ∈ mixBuffer ps sample bp notes, x = 0) →
      render_with_sample ps sample bp notes = mixBuffer ps sample bp notes) := by
  constructor
  · intro ps s bp notes h
    rw [render_with_sample]
    exact normalizeBuffer_peak _ h
  · intro ps s bp notes h
    rw [render_with_sample]
    simp only [normalizeBuffer]
    rw [maxAbs_zeros _ h]
    norm_num

theorem mixBuffer_singleton (ps : ℚ → List ℚ → List ℚ) (sample : List ℚ) (bp : ℚ)
    (n : Note) :
    mixBuffer ps sample bp [n]
      = placeNote ps sample bp
          (List.replicate
            (pyInt (((if max 0 n.stop ≤ 0 then 1 else max 0 n.stop) + 1)
              * (SAMPLE_RATE : ℚ))).toNat 0) n := rfl

theorem addAt_zero_single (n : ℕ) (hn : 1 ≤ n) (v : ℚ) :
    addAt (List.replicate n 0) 0 [v] = v :: List.replicate (n - 1) 0 := by
  obtain ⟨m, rfl⟩ : ∃ m, n = m + 1 := ⟨n - 1, by omega⟩
  simp [addAt, List.replicate_succ]

theorem mixBuffer_single :
    mixBuffer identityShift [1/2] 60 [⟨60, 0, 1, 127⟩]
      = (1/2 : ℚ) :: List.replicate 88199 0 := by
  have h1 := mixBuffer_singleton identityShift [1/2] 60 ⟨60, 0, 1, 127⟩
  have harg : (pyInt (((if max (0:ℚ) ((⟨60, 0, 1, 127⟩ : Note).stop) ≤ 0 then 1
      else max (0:ℚ) ((⟨60, 0, 1, 127⟩ : Note).stop)) + 1) * (SAMPLE_RATE : ℚ))).toNat
      = 88200 := by
    rw [show max (0:ℚ) ((⟨60, 0, 1, 127⟩ : Note).stop) = 1 from max_eq_right (by norm_num)]
    norm_num [pyInt, SAMPLE_RATE]
    rfl
  rw [harg] at h1
  have hstep2 : placeNote identityShift [1/2] 60 (List.replicate 88200 0) ⟨60, 0, 1, 127⟩
      = addAt (List.replicate 88200 0) 0 [(1 : ℚ)/2] := by
    simp only [placeNote, identityShift]
    norm_num [pyInt, SAMPLE_RATE, List.length_replicate]
  have hfinal := addAt_zero_single 88200 (by norm_num) ((1 : ℚ)/2)
  norm_num at hfinal
  rw [h1, hstep2, hfinal]

theorem maxAbs_cons_zeros (v : ℚ) (hv : 0 ≤ v) (l : List ℚ) (hl : ∀ x ∈ l, x = 0) :
    maxAbs (v :: l) = v := by
  simp only [maxAbs, List.foldl_cons]
  rw [abs_of_nonneg hv, max_eq_right hv]
  exact foldl_maxAbs_zeros l hl v hv

theorem compositor_normalizes_peak_witness :
    maxAbs (render_with_sample identityShift [1/2] 60 [⟨60, 0, 1, 127⟩]) = 9/10 ∧
    render_with_sample identityShift [] 60 [] = mixBuffer identityShift [] 60 [] := by
  constructor
  · apply compositor_normalizes_peak.1
    rw [mixBuffer_single,
      maxAbs_cons_zeros (1/2) (by norm_num) _ (fun x hx => List.eq_of_mem_replicate hx)]
    norm_num
  · apply compositor_normalizes_peak.2
    intro x hx
    rw [mixBuffer_nil] at hx
    exact List.eq_of_mem_replicate hx
